import Mathlib

/-!
# inkplate-ereader2: `get_task_info` and `sdcard_setup`

A shallow embedding of `src/sdcard/get_task_info.cpp` (the two-snapshot
CPU-share report) and of `src/sdcard/sd_card.cpp` (the SD-card setup state),
followed by the theorems about them.

Conventions of the embedding.

* `uint32_t`, `UBaseType_t` and `unsigned long` are 32 bits wide on the target
  (ESP32, ILP32): they are natural numbers, every arithmetic operation of the
  source is followed by `% U32`.
* A `TaskHandle_t` is a natural number, `0` is `NULL`.
* The arrays `start_array` and `end_array` are lists; the `for` loops over them
  are recursions over the list that carry the loop index.
* `printf` appends a `Line` to the output. A line carries the arguments passed
  to `printf` and, in addition, the value of the loop indices at the call, so
  that a theorem can say which record a line was printed for. The numbers of
  a `Matched` line are the `uint32_t` values handed to `printf`; how the
  format `%ld` renders them is not part of the embedding.
* FreeRTOS and the allocator are outside the repository: their results are
  fields of the environment `Env`. `portNUM_PROCESSORS` is a build constant of
  the FreeRTOS port and is a parameter, `nproc`.
* An integer division by zero raises a processor exception: the run ends
  without a return code, outcome `Outcome.divideByZero`.
-/

namespace GetTaskInfo

/-! ## 32-bit unsigned arithmetic -/

/-- Number of values of a `uint32_t`. -/
def U32 : Nat := 4294967296

/-- Subtraction of two `uint32_t`: `a - b` of the source. -/
def sub32 (a b : Nat) : Nat := (a % U32 + (U32 - b % U32)) % U32

/-- Multiplication of two 32-bit unsigned values: `a * b` of the source. -/
def mul32 (a b : Nat) : Nat := (a * b) % U32

/-! ## Data -/

/-- The fields of `TaskStatus_t` that `get_task_info` reads or writes. -/
structure TaskStatus where
  xHandle : Nat
  pcTaskName : String
  ulRunTimeCounter : Nat
  deriving DecidableEq, Repr

/-- The four values of `esp_err_t` that `get_task_info` returns. -/
inductive esp_err_t where
  | ESP_OK
  | ESP_ERR_NO_MEM
  | ESP_ERR_INVALID_SIZE
  | ESP_ERR_INVALID_STATE
  deriving DecidableEq, Repr

/-- One call of `printf`.
`header` is line 58; `matched i k name t p` is line 76, reached with loop index
`i` and match index `k`; `deleted i name` is line 83 and `created j name` is
line 88, with the loop index of the call. -/
inductive Line where
  | header
  | matched (i k : Nat) (name : String) (task_elapsed_time percentage_time : Nat)
  | deleted (i : Nat) (name : String)
  | created (j : Nat) (name : String)
  deriving DecidableEq, Repr

/-- How a call of `get_task_info` ends: it returns `ret` after printing `out`,
or the division of line 74 has a zero divisor and the processor raises an
exception after `out` was printed. -/
inductive Outcome where
  | returned (ret : esp_err_t) (out : List Line)
  | divideByZero (out : List Line)
  deriving DecidableEq, Repr

/-- `ARRAY_SIZE_OFFSET` of line 11. -/
def ARRAY_SIZE_OFFSET : Nat := 5

/-- Assignment `xHandle = NULL` of lines 66 and 67. -/
def clearHandle (t : TaskStatus) : TaskStatus := { t with xHandle := 0 }

/-! ## The loops of lines 58-90 -/

/-- Line 74: `(task_elapsed_time * 100UL) / (total_elapsed_time * portNUM_PROCESSORS)`
in 32-bit unsigned arithmetic; `none` when the divisor is zero. -/
def percentage (nproc total_elapsed_time task_elapsed_time : Nat) : Option Nat :=
  if mul32 total_elapsed_time nproc = 0 then none
  else some (mul32 task_elapsed_time 100 / mul32 total_elapsed_time nproc)

/-- The inner loop of lines 62-70 for the handle `h` of `start_array[i]`,
started at index `j` on the rest of `end_array`: at the first record whose
handle equals `h` it yields the index `k`, the run-time counter of that record
(read at line 73) and the array with that handle overwritten by `NULL`. -/
def innerLoop (h : Nat) : Nat → List TaskStatus → Option (Nat × Nat × List TaskStatus)
  | _, [] => none
  | j, e :: es =>
    if h = e.xHandle then some (j, e.ulRunTimeCounter, clearHandle e :: es)
    else match innerLoop h (j + 1) es with
      | none => none
      | some (k, c, es') => some (k, c, e :: es')

/-- The outer loop of lines 60-78 from index `i` on the rest of `start_array`,
with the current `end_array`. `Except.ok (s, e, out)`: the two arrays after the
loop and the lines printed; `Except.error out`: line 74 divided by zero after
`out` was printed. -/
def matchLoop (nproc total_elapsed_time : Nat) :
    Nat → List TaskStatus → List TaskStatus →
      Except (List Line) (List TaskStatus × List TaskStatus × List Line)
  | _, [], end_array => .ok ([], end_array, [])
  | i, s :: ss, end_array =>
    match innerLoop s.xHandle 0 end_array with
    | none =>
      match matchLoop nproc total_elapsed_time (i + 1) ss end_array with
      | .ok (ss', e', out) => .ok (s :: ss', e', out)
      | .error out => .error out
    | some (k, c, e1) =>
      let task_elapsed_time := sub32 c s.ulRunTimeCounter
      match percentage nproc total_elapsed_time task_elapsed_time with
      | none => .error []
      | some percentage_time =>
        let ln := Line.matched i k s.pcTaskName task_elapsed_time percentage_time
        match matchLoop nproc total_elapsed_time (i + 1) ss e1 with
        | .ok (ss', e', out) => .ok (clearHandle s :: ss', e', ln :: out)
        | .error out => .error (ln :: out)

/-- The loop of lines 81-85 from index `i`. -/
def deletedLoop : Nat → List TaskStatus → List Line
  | _, [] => []
  | i, s :: ss =>
    if s.xHandle ≠ 0 then Line.deleted i s.pcTaskName :: deletedLoop (i + 1) ss
    else deletedLoop (i + 1) ss

/-- The loop of lines 86-90 from index `i`. -/
def createdLoop : Nat → List TaskStatus → List Line
  | _, [] => []
  | i, e :: es =>
    if e.xHandle ≠ 0 then Line.created i e.pcTaskName :: createdLoop (i + 1) es
    else createdLoop (i + 1) es

/-- Lines 58-90: the header, the matching loop and the two loops over the
unmatched records. `Except.ok (s, e, out)` gives the arrays as the step leaves
them and everything printed. -/
def diffStep (nproc total_elapsed_time : Nat) (start_array end_array : List TaskStatus) :
    Except (List Line) (List TaskStatus × List TaskStatus × List Line) :=
  match matchLoop nproc total_elapsed_time 0 start_array end_array with
  | .error out => .error (Line.header :: out)
  | .ok (s', e', out) =>
    .ok (s', e', Line.header :: (out ++ deletedLoop 0 s' ++ createdLoop 0 e'))

/-! ## The whole function -/

/-- What FreeRTOS and the allocator answer at one of the two captures.
`malloc n` tells whether the allocation of `n` records succeeds;
`uxTaskGetSystemState n` gives the records written into a buffer of `n`
records (the length of the list is the returned count) and the run-time
clock reading. -/
structure Phase where
  uxTaskGetNumberOfTasks : Nat
  malloc : Nat → Bool
  uxTaskGetSystemState : Nat → List TaskStatus × Nat

/-- The system as `get_task_info` finds it: before the delay, and after
`vTaskDelay(xTicksToWait)`. -/
structure Env where
  before : Phase
  afterDelay : Int → Phase

/-- Buffer size requested at lines 22 and 38. -/
def requested (p : Phase) : Nat := (p.uxTaskGetNumberOfTasks + ARRAY_SIZE_OFFSET) % U32

/-- The function `get_task_info` (lines 13-96). -/
def get_task_info (nproc : Nat) (env : Env) (xTicksToWait : Int) : Outcome :=
  let p1 := env.before
  if p1.malloc (requested p1) = false then .returned .ESP_ERR_NO_MEM []
  else
    let start_array := (p1.uxTaskGetSystemState (requested p1)).1
    let start_run_time := (p1.uxTaskGetSystemState (requested p1)).2
    if start_array.length = 0 then .returned .ESP_ERR_INVALID_SIZE []
    else
      let p2 := env.afterDelay xTicksToWait
      if p2.malloc (requested p2) = false then .returned .ESP_ERR_NO_MEM []
      else
        let end_array := (p2.uxTaskGetSystemState (requested p2)).1
        let end_run_time := (p2.uxTaskGetSystemState (requested p2)).2
        if end_array.length = 0 then .returned .ESP_ERR_INVALID_SIZE []
        else
          let total_elapsed_time := sub32 end_run_time start_run_time
          if total_elapsed_time = 0 then .returned .ESP_ERR_INVALID_STATE []
          else
            match diffStep nproc total_elapsed_time start_array end_array with
            | .error out => .divideByZero out
            | .ok (_, _, out) => .returned .ESP_OK out

/-- An environment in which both allocations succeed and the two captures are
the given snapshots and clock readings. -/
def envOf (start_array : List TaskStatus) (start_run_time : Nat)
    (end_array : List TaskStatus) (end_run_time : Nat) : Env where
  before :=
    { uxTaskGetNumberOfTasks := start_array.length
      malloc := fun _ => true
      uxTaskGetSystemState := fun _ => (start_array, start_run_time) }
  afterDelay := fun _ =>
    { uxTaskGetNumberOfTasks := end_array.length
      malloc := fun _ => true
      uxTaskGetSystemState := fun _ => (end_array, end_run_time) }

/-! ## Vocabulary of the theorems -/

/-- The handles of a snapshot, in enumeration order. -/
def handles (l : List TaskStatus) : List Nat := l.map (fun t => t.xHandle)

/-- A well-formed snapshot: no handle is `NULL` and no handle occurs twice. -/
def WellFormed (l : List TaskStatus) : Prop :=
  (∀ t ∈ l, t.xHandle ≠ 0) ∧ (handles l).Nodup

instance (l : List TaskStatus) : Decidable (WellFormed l) := by
  unfold WellFormed; infer_instance

/-- An end array in the middle of the matching loop: a handle that is not
`NULL` does not occur again further on. -/
def Fresh (l : List TaskStatus) : Prop :=
  l.Pairwise (fun a b => a.xHandle ≠ 0 → a.xHandle ≠ b.xHandle)

/-- Record of the start array after the matching loop, given the end snapshot. -/
def markStart (end_array : List TaskStatus) (t : TaskStatus) : TaskStatus :=
  if t.xHandle ∈ handles end_array then clearHandle t else t

/-- Record of the end array after the matching loop, given the start snapshot. -/
def markEnd (start_array : List TaskStatus) (t : TaskStatus) : TaskStatus :=
  if t.xHandle ∈ handles start_array then clearHandle t else t

/-- Record of the end array after the record with handle `h` was consumed. -/
def consume (h : Nat) (t : TaskStatus) : TaskStatus :=
  if t.xHandle = h then clearHandle t else t

/-- Index and run-time counter that the inner loop finds for the handle `h`. -/
def lookup (h : Nat) (end_array : List TaskStatus) : Option (Nat × Nat) :=
  match innerLoop h 0 end_array with
  | none => none
  | some (k, c, _) => some (k, c)

/-- The `Matched` lines of the matching loop from index `i`, every start record
looked up in one and the same end array. -/
def matchedLines (nproc total_elapsed_time : Nat) :
    Nat → List TaskStatus → List TaskStatus → List Line
  | _, [], _ => []
  | i, s :: ss, e =>
    match lookup s.xHandle e with
    | none => matchedLines nproc total_elapsed_time (i + 1) ss e
    | some (k, c) =>
      Line.matched i k s.pcTaskName (sub32 c s.ulRunTimeCounter)
          (mul32 (sub32 c s.ulRunTimeCounter) 100 / mul32 total_elapsed_time nproc)
        :: matchedLines nproc total_elapsed_time (i + 1) ss e

/-- The loop index a line was printed at (`0` for the header). -/
def Line.index : Line → Nat
  | .header => 0
  | .matched i _ _ _ _ => i
  | .deleted i _ => i
  | .created j _ => j

/-- Everything a call has printed by the time it ends, with or without a
return code. -/
def Outcome.printed : Outcome → List Line
  | .returned _ out => out
  | .divideByZero out => out

/-- Lines in increasing order of their loop index. -/
def Ascending (out : List Line) : Prop :=
  out.Pairwise (fun a b => a.index < b.index)

/-- The names of a snapshot, in enumeration order. -/
def names (l : List TaskStatus) : List String := l.map (fun t => t.pcTaskName)

/-- The start snapshot of a run: the records of the first capture. -/
def startSnapshot (env : Env) : List TaskStatus :=
  (env.before.uxTaskGetSystemState (requested env.before)).1

/-- The end snapshot of a run: the records of the second capture. -/
def endSnapshot (env : Env) (xTicksToWait : Int) : List TaskStatus :=
  ((env.afterDelay xTicksToWait).uxTaskGetSystemState (requested (env.afterDelay xTicksToWait))).1

/-- The value of `total_elapsed_time` at line 52. -/
def totalElapsed (env : Env) (xTicksToWait : Int) : Nat :=
  sub32
    ((env.afterDelay xTicksToWait).uxTaskGetSystemState
      (requested (env.afterDelay xTicksToWait))).2
    (env.before.uxTaskGetSystemState (requested env.before)).2

/-- Both allocations of a run succeed. -/
def allocationsSucceed (env : Env) (xTicksToWait : Int) : Prop :=
  env.before.malloc (requested env.before) = true ∧
    (env.afterDelay xTicksToWait).malloc (requested (env.afterDelay xTicksToWait)) = true

/-- Number of `Matched` lines printed for the start record with handle `h`. -/
def matchedCount (start_array : List TaskStatus) (h : Nat) (out : List Line) : Nat :=
  out.countP fun l =>
    match l with
    | .matched i _ _ _ _ => decide (start_array[i]?.map (fun t => t.xHandle) = some h)
    | _ => false

/-- Number of `Deleted` lines printed for the start record with handle `h`. -/
def deletedCount (start_array : List TaskStatus) (h : Nat) (out : List Line) : Nat :=
  out.countP fun l =>
    match l with
    | .deleted i _ => decide (start_array[i]?.map (fun t => t.xHandle) = some h)
    | _ => false

/-- Number of `Created` lines printed for the end record with handle `h`. -/
def createdCount (end_array : List TaskStatus) (h : Nat) (out : List Line) : Nat :=
  out.countP fun l =>
    match l with
    | .created j _ => decide (end_array[j]?.map (fun t => t.xHandle) = some h)
    | _ => false

end GetTaskInfo

/-! # `sdcard_setup` -/

namespace SdCard

/-- The enumeration `SDCardState` (lines 12-16). -/
inductive SDCardState where
  | UNINITIALIZED
  | INITIALIZED
  | FAILED
  deriving DecidableEq, Repr

/-- A call of one of the driver functions `spi_bus_initialize`,
`esp_vfs_fat_sdspi_mount` and `sdmmc_card_print_info`. -/
inductive DriverCall where
  | spi_bus_initialize_call
  | esp_vfs_fat_sdspi_mount_call
  | sdmmc_card_print_info_call
  deriving DecidableEq, Repr

/-- The value `ESP_OK` of `esp_err_t`. -/
def ESP_OK : Int := 0

/-- What the driver answers during one call of `sdcard_setup`: the `esp_err_t`
returned by `spi_bus_initialize` and by `esp_vfs_fat_sdspi_mount`. -/
structure Driver where
  spi_bus_initialize_ret : Int
  esp_vfs_fat_sdspi_mount_ret : Int

/-- The result of one call of `sdcard_setup`: the returned `bool`, the module
variable `state` after the call, and the driver functions called, in order. -/
structure Result where
  ret : Bool
  state : SDCardState
  calls : List DriverCall
  deriving DecidableEq, Repr

/-- The function `sdcard_setup` (lines 36-113), from the module variable
`state` and the answers of the driver. -/
def sdcard_setup (state : SDCardState) (drv : Driver) : Result :=
  match state with
  | .INITIALIZED => ⟨true, .INITIALIZED, []⟩
  | .FAILED => ⟨false, .FAILED, []⟩
  | .UNINITIALIZED =>
    -- line 65: `state = SDCardState::FAILED`
    if drv.spi_bus_initialize_ret ≠ ESP_OK then
      ⟨false, .FAILED, [.spi_bus_initialize_call]⟩
    else if drv.esp_vfs_fat_sdspi_mount_ret ≠ ESP_OK then
      ⟨false, .FAILED, [.spi_bus_initialize_call, .esp_vfs_fat_sdspi_mount_call]⟩
    else
      ⟨true, .INITIALIZED,
        [.spi_bus_initialize_call, .esp_vfs_fat_sdspi_mount_call,
          .sdmmc_card_print_info_call]⟩

/-- Successive calls of `sdcard_setup`, one per element of the list, the module
variable `state` carried from call to call; the results in order. -/
def calls (state : SDCardState) : List Driver → List Result
  | [] => []
  | drv :: rest =>
    sdcard_setup state drv :: calls (sdcard_setup state drv).state rest

end SdCard

namespace GetTaskInfo

/-! ## The inner loop -/

theorem innerLoop_eq_none {h : Nat} {e : List TaskStatus} (j : Nat)
    (hn : h ∉ handles e) : innerLoop h j e = none := by
  induction e generalizing j with
  | nil => rfl
  | cons t ts ih =>
    simp only [handles, List.map_cons, List.mem_cons, not_or] at hn
    have h2 : h ∉ handles ts := hn.2
    simp [innerLoop, hn.1, ih (j + 1) h2]

theorem innerLoop_of_mem {h : Nat} {e : List TaskStatus} (j : Nat) (h0 : h ≠ 0)
    (hf : Fresh e) (hm : h ∈ handles e) :
    ∃ n t, e[n]? = some t ∧ t.xHandle = h ∧
      innerLoop h j e = some (j + n, t.ulRunTimeCounter, e.map (consume h)) := by
  induction e generalizing j with
  | nil => simp [handles] at hm
  | cons t ts ih =>
    unfold Fresh at hf
    rw [List.pairwise_cons] at hf
    by_cases ht : h = t.xHandle
    · refine ⟨0, t, by simp, ht.symm, ?_⟩
      have hfix : ∀ x ∈ ts, consume h x = id x := by
        intro x hx
        have hne := hf.1 x hx (ht ▸ h0)
        have hxh : ¬ x.xHandle = h := fun hxh => hne (by rw [← ht, hxh])
        simp [consume, hxh]
      have hrest : ts.map (consume h) = ts := by
        rw [List.map_congr_left hfix, List.map_id]
      subst ht
      simp [innerLoop, consume, hrest]
    · have hm2 : h ∈ handles ts := by
        simp only [handles, List.map_cons, List.mem_cons] at hm
        rcases hm with hm | hm
        · exact absurd hm ht
        · exact hm
      obtain ⟨n, u, hu, huh, hin⟩ := ih (j + 1) hf.2 hm2
      refine ⟨n + 1, u, by simpa using hu, huh, ?_⟩
      have hc : consume h t = t := by simp [consume, Ne.symm ht]
      simp [innerLoop, ht, hin, hc]
      omega

theorem xHandle_consume (h : Nat) (t : TaskStatus) :
    (consume h t).xHandle = if t.xHandle = h then 0 else t.xHandle := by
  unfold consume clearHandle
  split <;> rfl

theorem counter_consume (h : Nat) (t : TaskStatus) :
    (consume h t).ulRunTimeCounter = t.ulRunTimeCounter := by
  unfold consume clearHandle
  split <;> rfl

theorem innerLoop_consume {x h : Nat} (hx0 : x ≠ 0) (hxh : x ≠ h) (j : Nat)
    (e : List TaskStatus) :
    innerLoop x j (e.map (consume h)) =
      match innerLoop x j e with
      | none => none
      | some (k, c, e') => some (k, c, e'.map (consume h)) := by
  induction e generalizing j with
  | nil => rfl
  | cons t ts ih =>
    have hiff : (x = (consume h t).xHandle) ↔ (x = t.xHandle) := by
      rw [xHandle_consume]
      split
      · rename_i hth
        constructor
        · intro h1; exact absurd h1 hx0
        · intro h1; exact absurd (h1.trans hth) hxh
      · rfl
    by_cases hxt : x = t.xHandle
    · have hxt2 := hiff.mpr hxt
      have hck : consume h (clearHandle t) = clearHandle (consume h t) := by
        simp [consume, clearHandle]
        split <;> simp_all
      simp only [List.map_cons, innerLoop]
      rw [if_pos hxt2, if_pos hxt]
      simp [counter_consume, hck]
    · have hxt2 : ¬ x = (consume h t).xHandle := fun h1 => hxt (hiff.mp h1)
      simp only [List.map_cons, innerLoop, hxt, hxt2, if_false, ih (j + 1)]
      cases innerLoop x (j + 1) ts with
      | none => rfl
      | some r => rfl

theorem lookup_consume {x h : Nat} (hx0 : x ≠ 0) (hxh : x ≠ h) (e : List TaskStatus) :
    lookup x (e.map (consume h)) = lookup x e := by
  unfold lookup
  rw [innerLoop_consume hx0 hxh]
  cases innerLoop x 0 e with
  | none => rfl
  | some r => rfl

theorem mem_handles_consume {x h : Nat} (hx0 : x ≠ 0) (hxh : x ≠ h) (e : List TaskStatus) :
    x ∈ handles (e.map (consume h)) ↔ x ∈ handles e := by
  simp only [handles, List.map_map, List.mem_map, Function.comp]
  constructor
  · rintro ⟨t, ht, hxt⟩
    refine ⟨t, ht, ?_⟩
    rw [xHandle_consume] at hxt
    split at hxt
    · exact absurd hxt.symm hx0
    · exact hxt
  · rintro ⟨t, ht, hxt⟩
    refine ⟨t, ht, ?_⟩
    rw [xHandle_consume, if_neg]
    · exact hxt
    · intro hth; exact hxh (hxt.symm.trans hth)

theorem fresh_consume (h : Nat) {e : List TaskStatus} (hf : Fresh e) :
    Fresh (e.map (consume h)) := by
  unfold Fresh at hf ⊢
  rw [List.pairwise_map]
  refine hf.imp ?_
  intro a b hab
  rw [xHandle_consume, xHandle_consume]
  split
  · intro h0; exact absurd rfl h0
  · rename_i hah
    intro ha0
    split
    · exact ha0
    · exact hab ha0

theorem fresh_of_wellFormed {e : List TaskStatus} (hw : WellFormed e) : Fresh e := by
  have hn := hw.2
  unfold handles at hn
  unfold Fresh
  rw [List.Nodup, List.pairwise_map] at hn
  refine List.Pairwise.imp ?_ hn
  intro a b hab _
  exact hab

theorem matchedLines_congr (nproc total : Nat) (i : Nat) (ss e1 e2 : List TaskStatus)
    (hl : ∀ t ∈ ss, lookup t.xHandle e1 = lookup t.xHandle e2) :
    matchedLines nproc total i ss e1 = matchedLines nproc total i ss e2 := by
  induction ss generalizing i with
  | nil => rfl
  | cons s ss ih =>
    have h1 := hl s (List.mem_cons_self _ _)
    have h2 := ih (i + 1) (fun t ht => hl t (List.mem_cons_of_mem _ ht))
    simp only [matchedLines, h1, h2]

/-! ## The matching loop in closed form -/

theorem percentage_eq_some {nproc total : Nat} (hd : mul32 total nproc ≠ 0) (t : Nat) :
    percentage nproc total t = some (mul32 t 100 / mul32 total nproc) := by
  simp [percentage, hd]

theorem matchLoop_closed {nproc total : Nat} (hd : mul32 total nproc ≠ 0) (i : Nat)
    (ss e : List TaskStatus) (hs0 : ∀ t ∈ ss, t.xHandle ≠ 0) (hsn : (handles ss).Nodup)
    (hf : Fresh e) :
    matchLoop nproc total i ss e =
      .ok (ss.map (markStart e), e.map (markEnd ss), matchedLines nproc total i ss e) := by
  induction ss generalizing i e with
  | nil =>
    have hid : ∀ t ∈ e, markEnd [] t = id t := by
      intro t _; simp [markEnd, handles]
    simp [matchLoop, matchedLines, List.map_congr_left hid]
  | cons s ss ih =>
    have hs0' : ∀ t ∈ ss, t.xHandle ≠ 0 := fun t ht => hs0 t (List.mem_cons_of_mem _ ht)
    have hs : s.xHandle ≠ 0 := hs0 s (List.mem_cons_self _ _)
    simp only [handles, List.map_cons, List.nodup_cons] at hsn
    have hsn' : (handles ss).Nodup := hsn.2
    have hnot : s.xHandle ∉ handles ss := hsn.1
    have hne : ∀ t ∈ ss, t.xHandle ≠ s.xHandle := by
      intro t ht hts
      apply hnot
      simp only [handles, List.mem_map]
      exact ⟨t, ht, hts⟩
    by_cases hm : s.xHandle ∈ handles e
    · obtain ⟨n, t, _, _, hin⟩ := innerLoop_of_mem 0 hs hf hm
      have hrec := ih (i + 1) (e.map (consume s.xHandle)) hs0' hsn' (fresh_consume _ hf)
      have e1 : ss.map (markStart (e.map (consume s.xHandle))) = ss.map (markStart e) := by
        apply List.map_congr_left
        intro r hr
        unfold markStart
        rw [if_congr (mem_handles_consume (hs0' r hr) (hne r hr) e) rfl rfl]
      have e2 : (e.map (consume s.xHandle)).map (markEnd ss) = e.map (markEnd (s :: ss)) := by
        rw [List.map_map]
        apply List.map_congr_left
        intro r _
        simp only [Function.comp, markEnd, consume, handles, List.map_cons, List.mem_cons]
        by_cases hrs : r.xHandle = s.xHandle
        · have h0 : (0 : Nat) ∉ List.map (fun t => t.xHandle) ss := by
            intro h0
            simp only [List.mem_map] at h0
            obtain ⟨u, hu, hu0⟩ := h0
            exact hs0' u hu hu0
          simp [hrs, clearHandle, h0]
        · simp [hrs]
      have e3 : matchedLines nproc total (i + 1) ss (e.map (consume s.xHandle)) =
          matchedLines nproc total (i + 1) ss e :=
        matchedLines_congr _ _ _ _ _ _
          (fun r hr => lookup_consume (hs0' r hr) (hne r hr) e)
      have hl : lookup s.xHandle e = some (0 + n, t.ulRunTimeCounter) := by
        simp [lookup, hin]
      simp only [matchLoop, hin, percentage_eq_some hd, hrec, e1, e2, e3, matchedLines, hl,
        List.map_cons]
      simp [markStart, hm]
    · have hin := innerLoop_eq_none 0 hm
      have hrec := ih (i + 1) e hs0' hsn' hf
      have e2 : e.map (markEnd ss) = e.map (markEnd (s :: ss)) := by
        apply List.map_congr_left
        intro r hr
        have hrs : r.xHandle ≠ s.xHandle := by
          intro hrs
          apply hm
          simp only [handles, List.mem_map]
          exact ⟨r, hr, hrs⟩
        simp [markEnd, handles, hrs]
      have hl : lookup s.xHandle e = none := by simp [lookup, hin]
      simp only [matchLoop, hin, hrec, e2, matchedLines, hl, List.map_cons]
      simp [markStart, hm]

/-! ## The lines of the three loops -/

theorem mem_deletedLoop {l : Line} {i : Nat} {ss : List TaskStatus} :
    l ∈ deletedLoop i ss ↔
      ∃ n t, ss[n]? = some t ∧ t.xHandle ≠ 0 ∧ l = Line.deleted (i + n) t.pcTaskName := by
  induction ss generalizing i with
  | nil => simp [deletedLoop]
  | cons s ss ih =>
    constructor
    · intro hl
      unfold deletedLoop at hl
      split at hl
      · rename_i hs
        rcases List.mem_cons.mp hl with h1 | h1
        · exact ⟨0, s, by simp, hs, by simpa using h1⟩
        · obtain ⟨n, t, hn, ht, he⟩ := ih.mp h1
          exact ⟨n + 1, t, by simpa using hn, ht, by rw [he]; congr 1; omega⟩
      · obtain ⟨n, t, hn, ht, he⟩ := ih.mp hl
        exact ⟨n + 1, t, by simpa using hn, ht, by rw [he]; congr 1; omega⟩
    · rintro ⟨n, t, hn, ht, he⟩
      cases n with
      | zero =>
        simp at hn
        subst hn
        simp [deletedLoop, ht, he]
      | succ n =>
        have hn' : ss[n]? = some t := by simpa using hn
        have hmem : l ∈ deletedLoop (i + 1) ss :=
          ih.mpr ⟨n, t, hn', ht, by rw [he]; congr 1; omega⟩
        unfold deletedLoop
        split
        · exact List.mem_cons_of_mem _ hmem
        · exact hmem

theorem mem_createdLoop {l : Line} {i : Nat} {ss : List TaskStatus} :
    l ∈ createdLoop i ss ↔
      ∃ n t, ss[n]? = some t ∧ t.xHandle ≠ 0 ∧ l = Line.created (i + n) t.pcTaskName := by
  induction ss generalizing i with
  | nil => simp [createdLoop]
  | cons s ss ih =>
    constructor
    · intro hl
      unfold createdLoop at hl
      split at hl
      · rename_i hs
        rcases List.mem_cons.mp hl with h1 | h1
        · exact ⟨0, s, by simp, hs, by simpa using h1⟩
        · obtain ⟨n, t, hn, ht, he⟩ := ih.mp h1
          exact ⟨n + 1, t, by simpa using hn, ht, by rw [he]; congr 1; omega⟩
      · obtain ⟨n, t, hn, ht, he⟩ := ih.mp hl
        exact ⟨n + 1, t, by simpa using hn, ht, by rw [he]; congr 1; omega⟩
    · rintro ⟨n, t, hn, ht, he⟩
      cases n with
      | zero =>
        simp at hn
        subst hn
        simp [createdLoop, ht, he]
      | succ n =>
        have hn' : ss[n]? = some t := by simpa using hn
        have hmem : l ∈ createdLoop (i + 1) ss :=
          ih.mpr ⟨n, t, hn', ht, by rw [he]; congr 1; omega⟩
        unfold createdLoop
        split
        · exact List.mem_cons_of_mem _ hmem
        · exact hmem

theorem ascending_deletedLoop (i : Nat) (ss : List TaskStatus) :
    Ascending (deletedLoop i ss) := by
  induction ss generalizing i with
  | nil => simp [deletedLoop, Ascending]
  | cons s ss ih =>
    unfold deletedLoop
    split
    · unfold Ascending
      rw [List.pairwise_cons]
      refine ⟨?_, ih (i + 1)⟩
      intro l hl
      obtain ⟨n, t, _, _, he⟩ := mem_deletedLoop.mp hl
      rw [he]
      simp only [Line.index]
      omega
    · exact ih (i + 1)

theorem ascending_createdLoop (i : Nat) (ss : List TaskStatus) :
    Ascending (createdLoop i ss) := by
  induction ss generalizing i with
  | nil => simp [createdLoop, Ascending]
  | cons s ss ih =>
    unfold createdLoop
    split
    · unfold Ascending
      rw [List.pairwise_cons]
      refine ⟨?_, ih (i + 1)⟩
      intro l hl
      obtain ⟨n, t, _, _, he⟩ := mem_createdLoop.mp hl
      rw [he]
      simp only [Line.index]
      omega
    · exact ih (i + 1)

theorem innerLoop_names {h j k c : Nat} {e e' : List TaskStatus}
    (hin : innerLoop h j e = some (k, c, e')) : names e' = names e := by
  induction e generalizing j e' with
  | nil => simp [innerLoop] at hin
  | cons t ts ih =>
    unfold innerLoop at hin
    split at hin
    · simp only [Option.some.injEq, Prod.mk.injEq] at hin
      rw [← hin.2.2]
      simp [names, clearHandle]
    · cases hrec : innerLoop h (j + 1) ts with
      | none => simp [hrec] at hin
      | some r =>
        obtain ⟨k2, c2, e2⟩ := r
        simp only [hrec, Option.some.injEq, Prod.mk.injEq] at hin
        obtain ⟨h1, h2, h3⟩ := hin
        subst h1 h2 h3
        have := ih hrec
        simp only [names] at this ⊢
        simp [this]

theorem matchLoop_ok_of_divisor {nproc total : Nat} (hd : mul32 total nproc ≠ 0) (i : Nat)
    (ss e : List TaskStatus) : ∃ r, matchLoop nproc total i ss e = .ok r := by
  induction ss generalizing i e with
  | nil => exact ⟨_, rfl⟩
  | cons s ss ih =>
    unfold matchLoop
    cases hin : innerLoop s.xHandle 0 e with
    | none =>
      obtain ⟨r, hr⟩ := ih (i + 1) e
      simp only [hr]
      exact ⟨_, rfl⟩
    | some q =>
      obtain ⟨k, c, e1⟩ := q
      obtain ⟨r, hr⟩ := ih (i + 1) e1
      simp only [percentage_eq_some hd, hr]
      exact ⟨_, rfl⟩

theorem matchLoop_lines {nproc total i : Nat} {ss e s' e' : List TaskStatus} {out : List Line}
    (hrun : matchLoop nproc total i ss e = .ok (s', e', out)) :
    names s' = names ss ∧ names e' = names e ∧ Ascending out ∧
      ∀ l ∈ out, ∃ n t k rt p, ss[n]? = some t ∧ l = Line.matched (i + n) k t.pcTaskName rt p := by
  induction ss generalizing i e s' e' out with
  | nil =>
    simp only [matchLoop, Except.ok.injEq, Prod.mk.injEq] at hrun
    obtain ⟨h1, h2, h3⟩ := hrun
    subst h1 h2 h3
    simp [Ascending]
  | cons s ss ih =>
    unfold matchLoop at hrun
    cases hin : innerLoop s.xHandle 0 e with
    | none =>
      simp only [hin] at hrun
      cases hrec : matchLoop nproc total (i + 1) ss e with
      | error o => simp [hrec] at hrun
      | ok r =>
        obtain ⟨s2, e2, o2⟩ := r
        simp only [hrec, Except.ok.injEq, Prod.mk.injEq] at hrun
        obtain ⟨h1, h2, h3⟩ := hrun
        subst h1 h2 h3
        obtain ⟨a1, a2, a3, a4⟩ := ih hrec
        refine ⟨?_, a2, a3, ?_⟩
        · simp only [names] at a1 ⊢
          simp [a1]
        · intro l hl
          obtain ⟨n, t, k, rt, p, hn, he⟩ := a4 l hl
          exact ⟨n + 1, t, k, rt, p, by simpa using hn, by rw [he]; congr 1; omega⟩
    | some q =>
      obtain ⟨k, c, e1⟩ := q
      simp only [hin] at hrun
      cases hp : percentage nproc total (sub32 c s.ulRunTimeCounter) with
      | none => simp [hp] at hrun
      | some pct =>
        simp only [hp] at hrun
        cases hrec : matchLoop nproc total (i + 1) ss e1 with
        | error o => simp [hrec] at hrun
        | ok r =>
          obtain ⟨s2, e2, o2⟩ := r
          simp only [hrec, Except.ok.injEq, Prod.mk.injEq] at hrun
          obtain ⟨h1, h2, h3⟩ := hrun
          subst h1 h2 h3
          obtain ⟨a1, a2, a3, a4⟩ := ih hrec
          refine ⟨?_, ?_, ?_, ?_⟩
          · simp only [names] at a1 ⊢
            simp [a1, clearHandle]
          · rw [a2]; exact innerLoop_names hin
          · unfold Ascending
            rw [List.pairwise_cons]
            refine ⟨?_, a3⟩
            intro l hl
            obtain ⟨n, t, k2, rt, p, _, he⟩ := a4 l hl
            rw [he]
            simp only [Line.index]
            omega
          · intro l hl
            rcases List.mem_cons.mp hl with h1 | h1
            · exact ⟨0, s, k, _, pct, by simp, by rw [h1]; rfl⟩
            · obtain ⟨n, t, k2, rt, p, hn, he⟩ := a4 l h1
              exact ⟨n + 1, t, k2, rt, p, by simpa using hn, by rw [he]; congr 1; omega⟩

theorem names_getElem? {a b : List TaskStatus} (hab : names a = names b) {n : Nat}
    {t : TaskStatus} (hn : a[n]? = some t) :
    ∃ u, b[n]? = some u ∧ u.pcTaskName = t.pcTaskName := by
  have h1 : (names a)[n]? = (names b)[n]? := by rw [hab]
  simp only [names, List.getElem?_map, hn, Option.map_some'] at h1
  cases hb : b[n]? with
  | none => simp [hb] at h1
  | some u =>
    simp only [hb, Option.map_some', Option.some.injEq] at h1
    exact ⟨u, rfl, h1.symm⟩

/-! ## The whole function, path by path -/

theorem get_task_info_unfold (nproc : Nat) (env : Env) (xTicksToWait : Int) :
    get_task_info nproc env xTicksToWait =
      if env.before.malloc (requested env.before) = false then
        .returned .ESP_ERR_NO_MEM []
      else if (startSnapshot env).length = 0 then .returned .ESP_ERR_INVALID_SIZE []
      else if (env.afterDelay xTicksToWait).malloc
          (requested (env.afterDelay xTicksToWait)) = false then
        .returned .ESP_ERR_NO_MEM []
      else if (endSnapshot env xTicksToWait).length = 0 then
        .returned .ESP_ERR_INVALID_SIZE []
      else if totalElapsed env xTicksToWait = 0 then .returned .ESP_ERR_INVALID_STATE []
      else
        match diffStep nproc (totalElapsed env xTicksToWait) (startSnapshot env)
            (endSnapshot env xTicksToWait) with
        | .error out => .divideByZero out
        | .ok (_, _, out) => .returned .ESP_OK out := rfl

theorem get_task_info_returned {nproc : Nat} {env : Env} {xTicksToWait : Int}
    {ret : esp_err_t} {out : List Line}
    (h : get_task_info nproc env xTicksToWait = .returned ret out) :
    (ret ≠ .ESP_OK ∧ out = []) ∨
      (ret = .ESP_OK ∧ ∃ s' e', diffStep nproc (totalElapsed env xTicksToWait)
        (startSnapshot env) (endSnapshot env xTicksToWait) = .ok (s', e', out)) := by
  rw [get_task_info_unfold] at h
  split at h
  · simp only [Outcome.returned.injEq] at h
    left; rw [← h.1, ← h.2]; simp
  · split at h
    · simp only [Outcome.returned.injEq] at h
      left; rw [← h.1, ← h.2]; simp
    · split at h
      · simp only [Outcome.returned.injEq] at h
        left; rw [← h.1, ← h.2]; simp
      · split at h
        · simp only [Outcome.returned.injEq] at h
          left; rw [← h.1, ← h.2]; simp
        · split at h
          · simp only [Outcome.returned.injEq] at h
            left; rw [← h.1, ← h.2]; simp
          · right
            cases hd : diffStep nproc (totalElapsed env xTicksToWait) (startSnapshot env)
                (endSnapshot env xTicksToWait) with
            | error o => simp [hd] at h
            | ok r =>
              obtain ⟨s', e', o⟩ := r
              simp only [hd, Outcome.returned.injEq] at h
              exact ⟨h.1.symm, s', e', by rw [h.2]⟩

theorem diffStep_ok {nproc total : Nat} {s e s' e' : List TaskStatus} {out : List Line}
    (h : diffStep nproc total s e = .ok (s', e', out)) :
    ∃ M, matchLoop nproc total 0 s e = .ok (s', e', M) ∧
      out = Line.header :: (M ++ deletedLoop 0 s' ++ createdLoop 0 e') := by
  unfold diffStep at h
  cases hm : matchLoop nproc total 0 s e with
  | error o => simp [hm] at h
  | ok r =>
    obtain ⟨s2, e2, M⟩ := r
    simp only [hm, Except.ok.injEq, Prod.mk.injEq] at h
    obtain ⟨h1, h2, h3⟩ := h
    subst h1 h2
    exact ⟨M, rfl, h3.symm⟩

/-! ## Error paths and the shape of the report -/

/-- C4: when both allocations succeed, both captures hold at least one task and
`end_run_time - start_run_time` is zero, `get_task_info` returns
`ESP_ERR_INVALID_STATE` (and prints nothing), whatever the records of the two
arrays are. -/
theorem no_elapsed_time_invalid_state (nproc : Nat) (env : Env) (xTicksToWait : Int)
    (ha : allocationsSucceed env xTicksToWait)
    (hs : 1 ≤ (startSnapshot env).length) (he : 1 ≤ (endSnapshot env xTicksToWait).length)
    (h0 : totalElapsed env xTicksToWait = 0) :
    get_task_info nproc env xTicksToWait = .returned .ESP_ERR_INVALID_STATE [] := by
  rw [get_task_info_unfold]
  have hs' : (startSnapshot env).length ≠ 0 := by omega
  have he' : (endSnapshot env xTicksToWait).length ≠ 0 := by omega
  simp [ha.1, ha.2, hs', he', h0]

theorem no_elapsed_time_invalid_state_witness :
    totalElapsed (envOf [⟨1, "A", 10⟩, ⟨2, "B", 20⟩] 7 [⟨2, "B", 50⟩, ⟨3, "C", 5⟩] 7) 0 = 0 ∧
      get_task_info 2 (envOf [⟨1, "A", 10⟩, ⟨2, "B", 20⟩] 7 [⟨2, "B", 50⟩, ⟨3, "C", 5⟩] 7) 0 =
        .returned .ESP_ERR_INVALID_STATE [] :=
  ⟨by decide,
    no_elapsed_time_invalid_state 2
      (envOf [⟨1, "A", 10⟩, ⟨2, "B", 20⟩] 7 [⟨2, "B", 50⟩, ⟨3, "C", 5⟩] 7) 0
      ⟨rfl, rfl⟩ (by decide) (by decide) (by decide)⟩

/-- C6: when the first allocation succeeds and the start capture holds no task,
or both allocations succeed and the end capture holds no task, `get_task_info`
returns `ESP_ERR_INVALID_SIZE`, whatever buffer size was requested and whatever
the clock readings are. -/
theorem empty_snapshot_invalid_size (nproc : Nat) (env : Env) (xTicksToWait : Int)
    (hz : (env.before.malloc (requested env.before) = true ∧ (startSnapshot env).length = 0) ∨
      (allocationsSucceed env xTicksToWait ∧ (endSnapshot env xTicksToWait).length = 0)) :
    get_task_info nproc env xTicksToWait = .returned .ESP_ERR_INVALID_SIZE [] := by
  rw [get_task_info_unfold]
  rcases hz with ⟨h1, h2⟩ | ⟨⟨h1, h2⟩, h3⟩
  · simp [h1, h2]
  · by_cases hs : (startSnapshot env).length = 0
    · simp [h1, hs]
    · simp [h1, h2, h3, hs]

theorem empty_snapshot_invalid_size_witness :
    get_task_info 1 (envOf [] 3 [⟨2, "B", 50⟩] 9) 0 = .returned .ESP_ERR_INVALID_SIZE [] ∧
      get_task_info 1 (envOf [⟨2, "B", 50⟩] 3 [] 9) 0 = .returned .ESP_ERR_INVALID_SIZE [] :=
  ⟨empty_snapshot_invalid_size 1 (envOf [] 3 [⟨2, "B", 50⟩] 9) 0 (Or.inl ⟨rfl, rfl⟩),
    empty_snapshot_invalid_size 1 (envOf [⟨2, "B", 50⟩] 3 [] 9) 0 (Or.inr ⟨⟨rfl, rfl⟩, rfl⟩)⟩

/-- A call of `get_task_info` that returns a code other than `ESP_OK` has
printed nothing, not even the header; a call that returns `ESP_OK` has printed
the header, the lines of the matching loop run to its end, and the lines of the
two loops over the arrays that the matching loop left. A code is returned
whenever the divisor of line 74 is not zero. -/
theorem returned_code_report (nproc : Nat) (env : Env) (xTicksToWait : Int) :
    (∀ ret out, get_task_info nproc env xTicksToWait = .returned ret out →
      (ret ≠ .ESP_OK → out = []) ∧
      (ret = .ESP_OK → ∃ s' e' M,
        matchLoop nproc (totalElapsed env xTicksToWait) 0 (startSnapshot env)
          (endSnapshot env xTicksToWait) = .ok (s', e', M) ∧
        out = Line.header :: (M ++ deletedLoop 0 s' ++ createdLoop 0 e'))) ∧
    (mul32 (totalElapsed env xTicksToWait) nproc ≠ 0 →
      ∃ ret out, get_task_info nproc env xTicksToWait = .returned ret out) := by
  constructor
  · intro ret out h
    rcases get_task_info_returned h with ⟨h1, h2⟩ | ⟨h1, s', e', h2⟩
    · exact ⟨fun _ => h2, fun h3 => absurd h3 h1⟩
    · refine ⟨fun h3 => absurd h1 h3, fun _ => ?_⟩
      obtain ⟨M, hM, hout⟩ := diffStep_ok h2
      exact ⟨s', e', M, hM, hout⟩
  · intro hd
    rw [get_task_info_unfold]
    obtain ⟨r, hr⟩ := matchLoop_ok_of_divisor hd 0 (startSnapshot env)
      (endSnapshot env xTicksToWait)
    split
    · exact ⟨_, _, rfl⟩
    · split
      · exact ⟨_, _, rfl⟩
      · split
        · exact ⟨_, _, rfl⟩
        · split
          · exact ⟨_, _, rfl⟩
          · split
            · exact ⟨_, _, rfl⟩
            · simp only [diffStep, hr]
              exact ⟨_, _, rfl⟩

theorem returned_code_report_witness :
    ([] : List Line) = [] ∧
      ∃ ret out, get_task_info 1
        (envOf [⟨1, "A", 10⟩, ⟨2, "B", 20⟩] 0 [⟨2, "B", 50⟩, ⟨3, "C", 5⟩] 40) 0 =
          .returned ret out :=
  ⟨((returned_code_report 1 (envOf [⟨1, "A", 10⟩] 7 [⟨1, "A", 20⟩] 7) 0).1
      .ESP_ERR_INVALID_STATE [] rfl).1 (by decide),
    (returned_code_report 1
      (envOf [⟨1, "A", 10⟩, ⟨2, "B", 20⟩] 0 [⟨2, "B", 50⟩, ⟨3, "C", 5⟩] 40) 0).2 (by decide)⟩

/-- C3: on a run that returns `ESP_OK` the output is the header, then the
`Matched` lines, then the `Deleted` lines, then the `Created` lines; `Matched`
and `Deleted` lines are for records of the start snapshot and in increasing
order of their index there, `Created` lines are for records of the end snapshot
and in increasing order of their index there, and every line shows the name of
its record. For the start snapshot `A:10, B:20`, the end snapshot `B:50, C:5`
(distinct handles, none `NULL`), an elapsed time of 40 and one processor the
output is the header, `Matched(B, 30, 75)`, `Deleted(A)`, `Created(C)`. -/
theorem report_order :
    (∀ (nproc : Nat) (env : Env) (xTicksToWait : Int) (out : List Line),
      get_task_info nproc env xTicksToWait = .returned .ESP_OK out →
      ∃ M D C, out = Line.header :: (M ++ D ++ C) ∧
        (∀ l ∈ M, ∃ i k t rt p, (startSnapshot env)[i]? = some t ∧
          l = Line.matched i k t.pcTaskName rt p) ∧
        (∀ l ∈ D, ∃ i t, (startSnapshot env)[i]? = some t ∧
          l = Line.deleted i t.pcTaskName) ∧
        (∀ l ∈ C, ∃ j t, (endSnapshot env xTicksToWait)[j]? = some t ∧
          l = Line.created j t.pcTaskName) ∧
        Ascending M ∧ Ascending D ∧ Ascending C) ∧
    (∀ (a b c r0 r1 : Nat) (xTicksToWait : Int),
      a ≠ 0 → b ≠ 0 → c ≠ 0 → a ≠ b → b ≠ c → a ≠ c → sub32 r1 r0 = 40 →
      get_task_info 1 (envOf [⟨a, "A", 10⟩, ⟨b, "B", 20⟩] r0 [⟨b, "B", 50⟩, ⟨c, "C", 5⟩] r1)
          xTicksToWait =
        .returned .ESP_OK
          [.header, .matched 1 0 "B" 30 75, .deleted 0 "A", .created 1 "C"]) := by
  constructor
  · intro nproc env xTicksToWait out h
    rcases get_task_info_returned h with ⟨h1, _⟩ | ⟨_, s', e', h2⟩
    · exact absurd rfl h1
    · obtain ⟨M, hM, hout⟩ := diffStep_ok h2
      obtain ⟨n1, n2, hasc, hmem⟩ := matchLoop_lines hM
      refine ⟨M, deletedLoop 0 s', createdLoop 0 e', hout, ?_, ?_, ?_, hasc,
        ascending_deletedLoop 0 s', ascending_createdLoop 0 e'⟩
      · intro l hl
        obtain ⟨n, t, k, rt, p, hn, he⟩ := hmem l hl
        exact ⟨n, k, t, rt, p, hn, by rw [he, Nat.zero_add]⟩
      · intro l hl
        obtain ⟨n, t, hn, _, he⟩ := mem_deletedLoop.mp hl
        obtain ⟨u, hu, hname⟩ := names_getElem? n1 hn
        exact ⟨n, u, hu, by rw [he, Nat.zero_add, hname]⟩
      · intro l hl
        obtain ⟨n, t, hn, _, he⟩ := mem_createdLoop.mp hl
        obtain ⟨u, hu, hname⟩ := names_getElem? n2 hn
        exact ⟨n, u, hu, by rw [he, Nat.zero_add, hname]⟩
  · intro a b c r0 r1 xTicksToWait ha hb hc hab hbc hac hr
    have e1 : sub32 50 20 = 30 := by decide
    have e2 : mul32 40 1 = 40 := by decide
    have e3 : mul32 30 100 / 40 = 75 := by decide
    rw [get_task_info_unfold]
    simp [envOf, startSnapshot, endSnapshot, totalElapsed, hr, diffStep, matchLoop, innerLoop,
      percentage, deletedLoop, createdLoop, clearHandle, ha, hb, hc, hab, hbc, hac, e1, e2, e3]

theorem report_order_witness :
    get_task_info 1
        (envOf [⟨1, "A", 10⟩, ⟨2, "B", 20⟩] 1000 [⟨2, "B", 50⟩, ⟨3, "C", 5⟩] 1040) 25 =
      .returned .ESP_OK [.header, .matched 1 0 "B" 30 75, .deleted 0 "A", .created 1 "C"] ∧
    ∃ M D C, [Line.header, .matched 1 0 "B" 30 75, .deleted 0 "A", .created 1 "C"] =
        Line.header :: (M ++ D ++ C) ∧ Ascending M ∧ Ascending D ∧ Ascending C :=
  ⟨report_order.2 1 2 3 1000 1040 25 (by decide) (by decide) (by decide) (by decide)
      (by decide) (by decide) (by decide),
    by
      obtain ⟨M, D, C, h, _, _, _, hM, hD, hC⟩ := report_order.1 1
        (envOf [⟨1, "A", 10⟩, ⟨2, "B", 20⟩] 1000 [⟨2, "B", 50⟩, ⟨3, "C", 5⟩] 1040) 25
        [.header, .matched 1 0 "B" 30 75, .deleted 0 "A", .created 1 "C"] (by decide)
      exact ⟨M, D, C, h, hM, hD, hC⟩⟩

/-! ## Well-formed snapshots -/

theorem mem_matchedLines {nproc total i : Nat} {ss e : List TaskStatus} {l : Line} :
    l ∈ matchedLines nproc total i ss e ↔
      ∃ n t k c, ss[n]? = some t ∧ lookup t.xHandle e = some (k, c) ∧
        l = Line.matched (i + n) k t.pcTaskName (sub32 c t.ulRunTimeCounter)
          (mul32 (sub32 c t.ulRunTimeCounter) 100 / mul32 total nproc) := by
  induction ss generalizing i with
  | nil => simp [matchedLines]
  | cons s ss ih =>
    constructor
    · intro hl
      unfold matchedLines at hl
      cases hlk : lookup s.xHandle e with
      | none =>
        simp only [hlk] at hl
        obtain ⟨n, t, k, c, hn, hk, he⟩ := ih.mp hl
        exact ⟨n + 1, t, k, c, by simpa using hn, hk, by rw [he]; congr 1; omega⟩
      | some r =>
        obtain ⟨k0, c0⟩ := r
        simp only [hlk] at hl
        rcases List.mem_cons.mp hl with h1 | h1
        · exact ⟨0, s, k0, c0, by simp, hlk, by rw [h1]; rfl⟩
        · obtain ⟨n, t, k, c, hn, hk, he⟩ := ih.mp h1
          exact ⟨n + 1, t, k, c, by simpa using hn, hk, by rw [he]; congr 1; omega⟩
    · rintro ⟨n, t, k, c, hn, hk, he⟩
      cases n with
      | zero =>
        simp at hn
        subst hn
        simp [matchedLines, hk, he]
      | succ n =>
        have hn' : ss[n]? = some t := by simpa using hn
        have hmem : l ∈ matchedLines nproc total (i + 1) ss e :=
          ih.mpr ⟨n, t, k, c, hn', hk, by rw [he]; congr 1; omega⟩
        unfold matchedLines
        cases hlk : lookup s.xHandle e with
        | none => simpa [hlk] using hmem
        | some r => exact List.mem_cons_of_mem _ hmem

theorem mem_handles_of_getElem? {l : List TaskStatus} {n : Nat} {t : TaskStatus}
    (hn : l[n]? = some t) : t.xHandle ∈ handles l := by
  simp only [handles, List.mem_map]
  exact ⟨t, List.mem_iff_getElem?.mpr ⟨n, hn⟩, rfl⟩

theorem index_unique {l : List TaskStatus} (hw : WellFormed l) {n m : Nat} {t u : TaskStatus}
    (hn : l[n]? = some t) (hm : l[m]? = some u) (htu : t.xHandle = u.xHandle) :
    n = m ∧ t = u := by
  have hlt : n < (handles l).length := by
    obtain ⟨h, _⟩ := List.getElem?_eq_some.mp hn
    simpa [handles] using h
  have heq : (handles l)[n]? = (handles l)[m]? := by
    simp [handles, hn, hm, htu]
  have hnm : n = m := List.getElem?_inj hlt hw.2 heq
  subst hnm
  rw [hn] at hm
  exact ⟨rfl, Option.some.inj hm⟩

theorem lookup_of_getElem? {e : List TaskStatus} (hw : WellFormed e) {j : Nat} {b : TaskStatus}
    (hj : e[j]? = some b) : lookup b.xHandle e = some (j, b.ulRunTimeCounter) := by
  have hb0 : b.xHandle ≠ 0 := hw.1 b (List.mem_iff_getElem?.mpr ⟨j, hj⟩)
  obtain ⟨n, t, hn, ht, hin⟩ :=
    innerLoop_of_mem 0 hb0 (fresh_of_wellFormed hw) (mem_handles_of_getElem? hj)
  obtain ⟨h1, h2⟩ := index_unique hw hn hj ht
  subst h1 h2
  simp [lookup, hin]

theorem lookup_eq_none {h : Nat} {e : List TaskStatus} (hn : h ∉ handles e) :
    lookup h e = none := by
  simp [lookup, innerLoop_eq_none 0 hn]

theorem diffStep_closed {nproc total : Nat} (hd : mul32 total nproc ≠ 0)
    {s e : List TaskStatus} (hs : WellFormed s) (he : WellFormed e) :
    diffStep nproc total s e =
      .ok (s.map (markStart e), e.map (markEnd s),
        Line.header :: (matchedLines nproc total 0 s e ++
          deletedLoop 0 (s.map (markStart e)) ++ createdLoop 0 (e.map (markEnd s)))) := by
  unfold diffStep
  rw [matchLoop_closed hd 0 s e hs.1 hs.2 (fresh_of_wellFormed he)]

theorem deleted_not_mem {nproc total : Nat} {s e : List TaskStatus} {i : Nat} {a : TaskStatus}
    (hi : s[i]? = some a) (ha : a.xHandle ∈ handles e) (name : String) :
    Line.deleted i name ∉ Line.header :: (matchedLines nproc total 0 s e ++
      deletedLoop 0 (s.map (markStart e)) ++ createdLoop 0 (e.map (markEnd s))) := by
  intro hmem
  simp only [List.mem_cons, List.mem_append] at hmem
  rcases hmem with h | (h | h) | h
  · cases h
  · obtain ⟨n, t, k, c, _, _, hl⟩ := mem_matchedLines.mp h
    cases hl
  · obtain ⟨n, t, hn, ht, hl⟩ := mem_deletedLoop.mp h
    simp only [Line.deleted.injEq, Nat.zero_add] at hl
    rw [← hl.1, List.getElem?_map, hi] at hn
    simp only [Option.map_some', Option.some.injEq] at hn
    apply ht
    rw [← hn]
    simp [markStart, ha, clearHandle]
  · obtain ⟨n, t, _, _, hl⟩ := mem_createdLoop.mp h
    cases hl

theorem created_not_mem {nproc total : Nat} {s e : List TaskStatus} {j : Nat} {b : TaskStatus}
    (hj : e[j]? = some b) (hb : b.xHandle ∈ handles s) (name : String) :
    Line.created j name ∉ Line.header :: (matchedLines nproc total 0 s e ++
      deletedLoop 0 (s.map (markStart e)) ++ createdLoop 0 (e.map (markEnd s))) := by
  intro hmem
  simp only [List.mem_cons, List.mem_append] at hmem
  rcases hmem with h | (h | h) | h
  · cases h
  · obtain ⟨n, t, k, c, _, _, hl⟩ := mem_matchedLines.mp h
    cases hl
  · obtain ⟨n, t, _, _, hl⟩ := mem_deletedLoop.mp h
    cases hl
  · obtain ⟨n, t, hn, ht, hl⟩ := mem_createdLoop.mp h
    simp only [Line.created.injEq, Nat.zero_add] at hl
    rw [← hl.1, List.getElem?_map, hj] at hn
    simp only [Option.map_some', Option.some.injEq] at hn
    apply ht
    rw [← hn]
    simp [markEnd, hb, clearHandle]

theorem totalElapsed_ne_zero {nproc : Nat} {env : Env} {xTicksToWait : Int}
    (hd : mul32 (totalElapsed env xTicksToWait) nproc ≠ 0) :
    totalElapsed env xTicksToWait ≠ 0 := by
  intro h0
  apply hd
  rw [h0]
  simp [mul32]

theorem get_task_info_closed {nproc : Nat} {env : Env} {xTicksToWait : Int}
    (ha : allocationsSucceed env xTicksToWait)
    (hs : WellFormed (startSnapshot env)) (he : WellFormed (endSnapshot env xTicksToWait))
    (hs1 : (startSnapshot env).length ≠ 0) (he1 : (endSnapshot env xTicksToWait).length ≠ 0)
    (hd : mul32 (totalElapsed env xTicksToWait) nproc ≠ 0) :
    get_task_info nproc env xTicksToWait =
      .returned .ESP_OK (Line.header ::
        (matchedLines nproc (totalElapsed env xTicksToWait) 0 (startSnapshot env)
            (endSnapshot env xTicksToWait) ++
          deletedLoop 0 ((startSnapshot env).map (markStart (endSnapshot env xTicksToWait))) ++
          createdLoop 0 ((endSnapshot env xTicksToWait).map (markEnd (startSnapshot env))))) := by
  rw [get_task_info_unfold, diffStep_closed hd hs he]
  simp [ha.1, ha.2, hs1, he1, totalElapsed_ne_zero hd]

theorem length_ne_zero_of_getElem? {l : List TaskStatus} {n : Nat} {t : TaskStatus}
    (hn : l[n]? = some t) : l.length ≠ 0 := by
  obtain ⟨h, _⟩ := List.getElem?_eq_some.mp hn
  omega

/-- C8, as the code has it: records are matched by handle alone. When a record
of the start snapshot and a record of the end snapshot carry the same handle
(well-formed snapshots, allocations succeed, divisor of line 74 not zero), then
whatever their names and counters are, `get_task_info` prints one `Matched` line
that pairs the two records, with the name of the start record and the 32-bit
difference of the two counters, and prints no `Deleted` line for the start
record and no `Created` line for the end record. -/
theorem handle_reuse_is_matched (nproc : Nat) (env : Env) (xTicksToWait : Int)
    (ha : allocationsSucceed env xTicksToWait)
    (hs : WellFormed (startSnapshot env)) (he : WellFormed (endSnapshot env xTicksToWait))
    (hd : mul32 (totalElapsed env xTicksToWait) nproc ≠ 0)
    (i j : Nat) (a b : TaskStatus)
    (hi : (startSnapshot env)[i]? = some a) (hj : (endSnapshot env xTicksToWait)[j]? = some b)
    (hab : a.xHandle = b.xHandle) :
    ∃ out, get_task_info nproc env xTicksToWait = .returned .ESP_OK out ∧
      Line.matched i j a.pcTaskName (sub32 b.ulRunTimeCounter a.ulRunTimeCounter)
        (mul32 (sub32 b.ulRunTimeCounter a.ulRunTimeCounter) 100 /
          mul32 (totalElapsed env xTicksToWait) nproc) ∈ out ∧
      (∀ name, Line.deleted i name ∉ out) ∧ (∀ name, Line.created j name ∉ out) := by
  refine ⟨_, get_task_info_closed ha hs he (length_ne_zero_of_getElem? hi)
    (length_ne_zero_of_getElem? hj) hd, ?_, ?_, ?_⟩
  · apply List.mem_cons_of_mem
    apply List.mem_append_left
    apply List.mem_append_left
    refine mem_matchedLines.mpr ⟨i, a, j, b.ulRunTimeCounter, hi, ?_, by rw [Nat.zero_add]⟩
    rw [hab]
    exact lookup_of_getElem? he hj
  · intro name
    exact deleted_not_mem hi (hab ▸ mem_handles_of_getElem? hj) name
  · intro name
    exact created_not_mem hj (hab ▸ mem_handles_of_getElem? hi) name

/-- C8 as stated fails: a start record `old` and an end record `new` with the
same handle, as left by a task destroyed and another created in its place, are
printed as one `Matched` line; no `Deleted` and no `Created` line is printed. -/
theorem handle_reuse_counterexample :
    get_task_info 1 (envOf [⟨7, "old", 10⟩] 0 [⟨7, "new", 30⟩] 40) 0 =
      .returned .ESP_OK [.header, .matched 0 0 "old" 20 50] := by
  decide

theorem handle_reuse_is_matched_witness :
    ∃ out, get_task_info 1 (envOf [⟨7, "old", 10⟩] 0 [⟨7, "new", 30⟩] 40) 0 =
        .returned .ESP_OK out ∧
      Line.matched 0 0 "old" (sub32 30 10) (mul32 (sub32 30 10) 100 / mul32 40 1) ∈ out ∧
      (∀ name, Line.deleted 0 name ∉ out) ∧ (∀ name, Line.created 0 name ∉ out) :=
  handle_reuse_is_matched 1 (envOf [⟨7, "old", 10⟩] 0 [⟨7, "new", 30⟩] 40) 0
    ⟨rfl, rfl⟩ (by decide) (by decide) (by decide) 0 0 ⟨7, "old", 10⟩ ⟨7, "new", 30⟩ rfl rfl rfl

/-! ## Two runs on the same pair of snapshots -/

/-- C9: the step of lines 58-90 is determined by the pair of snapshots. Two runs
that reach it with the same start records, the same end records and the same
elapsed time (as two runs on the same pair of snapshots do) print the identical
sequence of lines in the same order and leave their arrays in the same state,
whatever else differs between the runs: the tick count, the requested buffer
sizes, the absolute clock readings. The whole calls end alike. -/
theorem same_snapshots_same_lines (nproc : Nat) (env1 env2 : Env) (t1 t2 : Int)
    (ha1 : allocationsSucceed env1 t1) (ha2 : allocationsSucceed env2 t2)
    (hs : startSnapshot env1 = startSnapshot env2)
    (he : endSnapshot env1 t1 = endSnapshot env2 t2)
    (ht : totalElapsed env1 t1 = totalElapsed env2 t2) :
    diffStep nproc (totalElapsed env1 t1) (startSnapshot env1) (endSnapshot env1 t1) =
        diffStep nproc (totalElapsed env2 t2) (startSnapshot env2) (endSnapshot env2 t2) ∧
      get_task_info nproc env1 t1 = get_task_info nproc env2 t2 := by
  constructor
  · rw [hs, he, ht]
  · rw [get_task_info_unfold, get_task_info_unfold, hs, he, ht]
    simp [ha1.1, ha1.2, ha2.1, ha2.2]

theorem same_snapshots_same_lines_witness :
    get_task_info 1
        (envOf [⟨1, "A", 10⟩, ⟨2, "B", 20⟩] 0 [⟨2, "B", 50⟩, ⟨3, "C", 5⟩] 40) 10 =
      get_task_info 1
        (envOf [⟨1, "A", 10⟩, ⟨2, "B", 20⟩] 1000 [⟨2, "B", 50⟩, ⟨3, "C", 5⟩] 1040) 25 :=
  (same_snapshots_same_lines 1
    (envOf [⟨1, "A", 10⟩, ⟨2, "B", 20⟩] 0 [⟨2, "B", 50⟩, ⟨3, "C", 5⟩] 40)
    (envOf [⟨1, "A", 10⟩, ⟨2, "B", 20⟩] 1000 [⟨2, "B", 50⟩, ⟨3, "C", 5⟩] 1040) 10 25
    ⟨rfl, rfl⟩ ⟨rfl, rfl⟩ rfl rfl (by decide)).2

/-! ## Every record is reported once -/

theorem innerLoop_some_of_mem {h : Nat} {e : List TaskStatus} (j : Nat) (hm : h ∈ handles e) :
    ∃ r, innerLoop h j e = some r := by
  induction e generalizing j with
  | nil => simp [handles] at hm
  | cons t ts ih =>
    unfold innerLoop
    by_cases ht : h = t.xHandle
    · simp [ht]
    · have hm2 : h ∈ handles ts := by
        simp only [handles, List.map_cons, List.mem_cons] at hm
        rcases hm with hm | hm
        · exact absurd hm ht
        · exact hm
      obtain ⟨r, hr⟩ := ih (j + 1) hm2
      obtain ⟨k, c, e'⟩ := r
      simp [ht, hr]

theorem lookup_isSome_iff (h : Nat) (e : List TaskStatus) :
    (lookup h e).isSome = true ↔ h ∈ handles e := by
  constructor
  · intro hs
    by_contra hn
    rw [lookup_eq_none hn] at hs
    cases hs
  · intro hm
    obtain ⟨r, hr⟩ := innerLoop_some_of_mem 0 hm
    obtain ⟨k, c, e'⟩ := r
    simp [lookup, hr]

theorem countP_eq_one_of_unique {p : Line → Bool} {l : List Line} {x : Line}
    (hn : l.Nodup) (hx : x ∈ l) (hp : p x = true) (hu : ∀ y ∈ l, p y = true → y = x) :
    l.countP p = 1 := by
  induction l with
  | nil => cases hx
  | cons y ys ih =>
    rw [List.nodup_cons] at hn
    by_cases hxy : y = x
    · subst hxy
      rw [List.countP_cons_of_pos p _ hp]
      have h0 : ys.countP p = 0 := by
        rw [List.countP_eq_zero]
        intro a ha hpa
        have hay := hu a (List.mem_cons_of_mem _ ha) hpa
        rw [hay] at ha
        exact hn.1 ha
      omega
    · have hx' : x ∈ ys := by
        rcases List.mem_cons.mp hx with h | h
        · exact absurd h.symm hxy
        · exact h
      have hpy : ¬ p y = true := fun hpy => hxy (hu y (List.mem_cons_self _ _) hpy)
      rw [List.countP_cons_of_neg p _ hpy]
      exact ih hn.2 hx' (fun a ha => hu a (List.mem_cons_of_mem _ ha))

theorem nodup_of_ascending {l : List Line} (h : Ascending l) : l.Nodup := by
  unfold Ascending at h
  refine List.Pairwise.imp ?_ h
  intro a b hab heq
  rw [heq] at hab
  exact Nat.lt_irrefl _ hab

theorem ascending_matchedLines (nproc total i : Nat) (ss e : List TaskStatus) :
    Ascending (matchedLines nproc total i ss e) := by
  induction ss generalizing i with
  | nil => simp [matchedLines, Ascending]
  | cons s ss ih =>
    unfold matchedLines
    cases hlk : lookup s.xHandle e with
    | none => exact ih (i + 1)
    | some r =>
      obtain ⟨k, c⟩ := r
      unfold Ascending
      simp only
      rw [List.pairwise_cons]
      refine ⟨?_, ih (i + 1)⟩
      intro l hl
      obtain ⟨n, t, k2, c2, _, _, he⟩ := mem_matchedLines.mp hl
      rw [he]
      simp only [Line.index]
      omega

theorem exists_of_mem_handles {l : List TaskStatus} {h : Nat} (hm : h ∈ handles l) :
    ∃ (n : Nat) (t : TaskStatus), l[n]? = some t ∧ t.xHandle = h := by
  simp only [handles, List.mem_map] at hm
  obtain ⟨t, ht, hth⟩ := hm
  obtain ⟨n, hn⟩ := List.mem_iff_getElem?.mp ht
  exact ⟨n, t, hn, hth⟩

theorem handle_of_getElem?_map {l : List TaskStatus} {n h : Nat}
    (hm : l[n]?.map (fun t => t.xHandle) = some h) : ∃ t, l[n]? = some t ∧ t.xHandle = h := by
  cases hl : l[n]? with
  | none => simp [hl] at hm
  | some t =>
    simp only [hl, Option.map_some', Option.some.injEq] at hm
    exact ⟨t, rfl, hm⟩

theorem matchedCount_matchedLines {nproc total : Nat} {s e : List TaskStatus}
    (hs : WellFormed s) (he : WellFormed e) (h : Nat) :
    matchedCount s h (matchedLines nproc total 0 s e) =
      if h ∈ handles s ∧ h ∈ handles e then 1 else 0 := by
  unfold matchedCount
  split
  · rename_i hboth
    obtain ⟨i, a, hi, hah⟩ := exists_of_mem_handles hboth.1
    obtain ⟨j, b, hj, hbh⟩ := exists_of_mem_handles hboth.2
    have hlk : lookup a.xHandle e = some (j, b.ulRunTimeCounter) := by
      rw [hah, ← hbh]
      exact lookup_of_getElem? he hj
    apply countP_eq_one_of_unique (nodup_of_ascending (ascending_matchedLines _ _ _ _ _))
      (mem_matchedLines.mpr ⟨i, a, j, b.ulRunTimeCounter, hi, hlk, rfl⟩)
    · simp [hi, hah]
    · intro y hy hpy
      obtain ⟨n, t, k, c, hn, hk, hyl⟩ := mem_matchedLines.mp hy
      subst hyl
      simp only [Nat.zero_add, decide_eq_true_eq] at hpy
      obtain ⟨t2, ht2, hth⟩ := handle_of_getElem?_map hpy
      rw [hn] at ht2
      have htt : t = t2 := Option.some.inj ht2
      subst htt
      obtain ⟨h1, h2⟩ := index_unique hs hn hi (hth.trans hah.symm)
      subst h1 h2
      rw [hlk] at hk
      simp only [Option.some.injEq, Prod.mk.injEq] at hk
      rw [← hk.1, ← hk.2]
  · rename_i hnot
    rw [List.countP_eq_zero]
    intro y hy hpy
    obtain ⟨n, t, k, c, hn, hk, hyl⟩ := mem_matchedLines.mp hy
    subst hyl
    simp only [Nat.zero_add, decide_eq_true_eq] at hpy
    obtain ⟨t2, ht2, hth⟩ := handle_of_getElem?_map hpy
    rw [hn] at ht2
    have htt : t = t2 := Option.some.inj ht2
    subst htt
    apply hnot
    constructor
    · rw [← hth]; exact mem_handles_of_getElem? hn
    · rw [← hth]
      apply (lookup_isSome_iff _ _).mp
      rw [hk]; rfl

theorem getElem?_map_some {f : TaskStatus → TaskStatus} {l : List TaskStatus} {n : Nat}
    {u : TaskStatus} (hn : (l.map f)[n]? = some u) : ∃ t, l[n]? = some t ∧ f t = u := by
  rw [List.getElem?_map] at hn
  cases hl : l[n]? with
  | none => simp [hl] at hn
  | some t =>
    simp only [hl, Option.map_some', Option.some.injEq] at hn
    exact ⟨t, rfl, hn⟩

theorem name_markStart (e : List TaskStatus) (t : TaskStatus) :
    (markStart e t).pcTaskName = t.pcTaskName := by
  unfold markStart clearHandle
  split <;> rfl

theorem name_markEnd (s : List TaskStatus) (t : TaskStatus) :
    (markEnd s t).pcTaskName = t.pcTaskName := by
  unfold markEnd clearHandle
  split <;> rfl

theorem deletedCount_deletedLoop {s : List TaskStatus} (e : List TaskStatus)
    (hs : WellFormed s) (h : Nat) :
    deletedCount s h (deletedLoop 0 (s.map (markStart e))) =
      if h ∈ handles s ∧ h ∉ handles e then 1 else 0 := by
  unfold deletedCount
  split
  · rename_i hc
    obtain ⟨i, a, hi, hah⟩ := exists_of_mem_handles hc.1
    have ha0 : a.xHandle ≠ 0 := hs.1 a (List.mem_iff_getElem?.mpr ⟨i, hi⟩)
    have hkeep : markStart e a = a := by
      have : a.xHandle ∉ handles e := by rw [hah]; exact hc.2
      simp [markStart, this]
    have hx : Line.deleted i a.pcTaskName ∈ deletedLoop 0 (s.map (markStart e)) := by
      refine mem_deletedLoop.mpr ⟨i, a, ?_, ha0, by rw [Nat.zero_add]⟩
      rw [List.getElem?_map, hi, Option.map_some', hkeep]
    apply countP_eq_one_of_unique (nodup_of_ascending (ascending_deletedLoop _ _)) hx
    · simp [hi, hah]
    · intro y hy hpy
      obtain ⟨n, u, hn, _, hyl⟩ := mem_deletedLoop.mp hy
      obtain ⟨t, ht, htu⟩ := getElem?_map_some hn
      subst hyl
      simp only [Nat.zero_add, decide_eq_true_eq] at hpy
      obtain ⟨t2, ht2, hth⟩ := handle_of_getElem?_map hpy
      rw [ht] at ht2
      have htt : t = t2 := Option.some.inj ht2
      subst htt
      obtain ⟨h1, h2⟩ := index_unique hs ht hi (hth.trans hah.symm)
      subst h1 h2
      rw [← htu, name_markStart, Nat.zero_add]
  · rename_i hnot
    rw [List.countP_eq_zero]
    intro y hy hpy
    obtain ⟨n, u, hn, hu0, hyl⟩ := mem_deletedLoop.mp hy
    obtain ⟨t, ht, htu⟩ := getElem?_map_some hn
    subst hyl
    simp only [Nat.zero_add, decide_eq_true_eq] at hpy
    obtain ⟨t2, ht2, hth⟩ := handle_of_getElem?_map hpy
    rw [ht] at ht2
    have htt : t = t2 := Option.some.inj ht2
    subst htt
    apply hnot
    constructor
    · rw [← hth]; exact mem_handles_of_getElem? ht
    · intro hme
      apply hu0
      rw [← htu]
      rw [← hth] at hme
      simp [markStart, hme, clearHandle]

theorem createdCount_createdLoop (s : List TaskStatus) {e : List TaskStatus}
    (he : WellFormed e) (h : Nat) :
    createdCount e h (createdLoop 0 (e.map (markEnd s))) =
      if h ∈ handles e ∧ h ∉ handles s then 1 else 0 := by
  unfold createdCount
  split
  · rename_i hc
    obtain ⟨j, b, hj, hbh⟩ := exists_of_mem_handles hc.1
    have hb0 : b.xHandle ≠ 0 := he.1 b (List.mem_iff_getElem?.mpr ⟨j, hj⟩)
    have hkeep : markEnd s b = b := by
      have : b.xHandle ∉ handles s := by rw [hbh]; exact hc.2
      simp [markEnd, this]
    have hx : Line.created j b.pcTaskName ∈ createdLoop 0 (e.map (markEnd s)) := by
      refine mem_createdLoop.mpr ⟨j, b, ?_, hb0, by rw [Nat.zero_add]⟩
      rw [List.getElem?_map, hj, Option.map_some', hkeep]
    apply countP_eq_one_of_unique (nodup_of_ascending (ascending_createdLoop _ _)) hx
    · simp [hj, hbh]
    · intro y hy hpy
      obtain ⟨n, u, hn, _, hyl⟩ := mem_createdLoop.mp hy
      obtain ⟨t, ht, htu⟩ := getElem?_map_some hn
      subst hyl
      simp only [Nat.zero_add, decide_eq_true_eq] at hpy
      obtain ⟨t2, ht2, hth⟩ := handle_of_getElem?_map hpy
      rw [ht] at ht2
      have htt : t = t2 := Option.some.inj ht2
      subst htt
      obtain ⟨h1, h2⟩ := index_unique he ht hj (hth.trans hbh.symm)
      subst h1 h2
      rw [← htu, name_markEnd, Nat.zero_add]
  · rename_i hnot
    rw [List.countP_eq_zero]
    intro y hy hpy
    obtain ⟨n, u, hn, hu0, hyl⟩ := mem_createdLoop.mp hy
    obtain ⟨t, ht, htu⟩ := getElem?_map_some hn
    subst hyl
    simp only [Nat.zero_add, decide_eq_true_eq] at hpy
    obtain ⟨t2, ht2, hth⟩ := handle_of_getElem?_map hpy
    rw [ht] at ht2
    have htt : t = t2 := Option.some.inj ht2
    subst htt
    apply hnot
    constructor
    · rw [← hth]; exact mem_handles_of_getElem? ht
    · intro hme
      apply hu0
      rw [← htu]
      rw [← hth] at hme
      simp [markEnd, hme, clearHandle]

/-- On well-formed snapshots and with a divisor of line 74 that is not zero,
the step of lines 58-90 prints, for every handle `h`: one `Matched` line if `h`
is in both snapshots and none otherwise; one `Deleted` line if `h` is in the
start snapshot only and none otherwise; one `Created` line if `h` is in the end
snapshot only and none otherwise. -/
theorem exactly_once (nproc total : Nat) (s e : List TaskStatus)
    (hs : WellFormed s) (he : WellFormed e) (hd : mul32 total nproc ≠ 0) :
    ∃ s' e' out, diffStep nproc total s e = .ok (s', e', out) ∧
      ∀ h,
        matchedCount s h out = (if h ∈ handles s ∧ h ∈ handles e then 1 else 0) ∧
        deletedCount s h out = (if h ∈ handles s ∧ h ∉ handles e then 1 else 0) ∧
        createdCount e h out = (if h ∈ handles e ∧ h ∉ handles s then 1 else 0) := by
  refine ⟨_, _, _, diffStep_closed hd hs he, ?_⟩
  intro h
  have m0 : ∀ l : List TaskStatus, matchedCount s h (deletedLoop 0 l) = 0 := by
    intro l
    unfold matchedCount
    rw [List.countP_eq_zero]
    intro y hy
    obtain ⟨n, u, _, _, hyl⟩ := mem_deletedLoop.mp hy
    subst hyl; simp
  have m1 : ∀ l : List TaskStatus, matchedCount s h (createdLoop 0 l) = 0 := by
    intro l
    unfold matchedCount
    rw [List.countP_eq_zero]
    intro y hy
    obtain ⟨n, u, _, _, hyl⟩ := mem_createdLoop.mp hy
    subst hyl; simp
  have d0 : deletedCount s h (matchedLines nproc total 0 s e) = 0 := by
    unfold deletedCount
    rw [List.countP_eq_zero]
    intro y hy
    obtain ⟨n, t, k, c, _, _, hyl⟩ := mem_matchedLines.mp hy
    subst hyl; simp
  have d1 : ∀ l : List TaskStatus, deletedCount s h (createdLoop 0 l) = 0 := by
    intro l
    unfold deletedCount
    rw [List.countP_eq_zero]
    intro y hy
    obtain ⟨n, u, _, _, hyl⟩ := mem_createdLoop.mp hy
    subst hyl; simp
  have c0 : createdCount e h (matchedLines nproc total 0 s e) = 0 := by
    unfold createdCount
    rw [List.countP_eq_zero]
    intro y hy
    obtain ⟨n, t, k, c, _, _, hyl⟩ := mem_matchedLines.mp hy
    subst hyl; simp
  have c1 : ∀ l : List TaskStatus, createdCount e h (deletedLoop 0 l) = 0 := by
    intro l
    unfold createdCount
    rw [List.countP_eq_zero]
    intro y hy
    obtain ⟨n, u, _, _, hyl⟩ := mem_deletedLoop.mp hy
    subst hyl; simp
  have hM := @matchedCount_matchedLines nproc total s e hs he h
  have hD := deletedCount_deletedLoop e hs h
  have hC := createdCount_createdLoop s he h
  have m0' := m0 (s.map (markStart e))
  have m1' := m1 (e.map (markEnd s))
  have d1' := d1 (e.map (markEnd s))
  have c1' := c1 (s.map (markStart e))
  unfold matchedCount deletedCount createdCount at *
  refine ⟨?_, ?_, ?_⟩
  · rw [List.countP_cons_of_neg _ _ (by simp), List.countP_append, List.countP_append,
      hM, m0', m1']
    simp only [Nat.add_zero]
  · rw [List.countP_cons_of_neg _ _ (by simp), List.countP_append, List.countP_append,
      hD, d0, d1']
    simp only [Nat.add_zero, Nat.zero_add]
  · rw [List.countP_cons_of_neg _ _ (by simp), List.countP_append, List.countP_append,
      hC, c0, c1']
    simp only [Nat.zero_add]

end GetTaskInfo

namespace SdCard

theorem calls_settled (st : SDCardState) (hst : st ≠ .UNINITIALIZED) (rest : List Driver) :
    ∀ r ∈ calls st rest, r.ret = decide (st = .INITIALIZED) ∧ r.state = st ∧ r.calls = [] := by
  induction rest with
  | nil => intro r hr; cases hr
  | cons d ds ih =>
    intro r hr
    have hone : sdcard_setup st d = ⟨decide (st = .INITIALIZED), st, []⟩ := by
      cases st with
      | UNINITIALIZED => exact absurd rfl hst
      | INITIALIZED => rfl
      | FAILED => rfl
    simp only [calls, hone, List.mem_cons] at hr
    rcases hr with h | h
    · rw [h]; exact ⟨rfl, rfl, rfl⟩
    · exact ih r h

theorem first_call (drv : Driver) :
    (sdcard_setup .UNINITIALIZED drv).state ≠ .UNINITIALIZED ∧
      (sdcard_setup .UNINITIALIZED drv).ret =
        decide ((sdcard_setup .UNINITIALIZED drv).state = .INITIALIZED) := by
  unfold sdcard_setup
  simp only
  split
  · exact ⟨by decide, rfl⟩
  · split
    · exact ⟨by decide, rfl⟩
    · exact ⟨by decide, rfl⟩

/-- C10: starting from `UNINITIALIZED`, after every call of `sdcard_setup` the
state is `INITIALIZED` if the call returned `true` and `FAILED` if it returned
`false`, so it is never `UNINITIALIZED` again; every call after the first
returns what the first call returned and calls no driver function (neither
`spi_bus_initialize` nor `esp_vfs_fat_sdspi_mount`), so a failed setup is not
tried again. -/
theorem setup_state_sticky (first : Driver) (later : List Driver) :
    (∀ r ∈ calls .UNINITIALIZED (first :: later),
      (r.state = .INITIALIZED ↔ r.ret = true) ∧ (r.state = .FAILED ↔ r.ret = false) ∧
        r.state ≠ .UNINITIALIZED) ∧
    (∀ r ∈ calls (sdcard_setup .UNINITIALIZED first).state later,
      r.ret = (sdcard_setup .UNINITIALIZED first).ret ∧ r.calls = []) := by
  obtain ⟨hne, hret⟩ := first_call first
  have hlater := calls_settled _ hne later
  have hshape : ∀ r : Result, r.state ≠ .UNINITIALIZED →
      r.ret = decide (r.state = .INITIALIZED) →
      (r.state = .INITIALIZED ↔ r.ret = true) ∧ (r.state = .FAILED ↔ r.ret = false) ∧
        r.state ≠ .UNINITIALIZED := by
    intro r h1 h2
    obtain ⟨ret, st, cs⟩ := r
    simp only at h1 h2 ⊢
    cases st with
    | UNINITIALIZED => exact absurd rfl h1
    | INITIALIZED => rw [h2]; simp
    | FAILED => rw [h2]; simp
  constructor
  · intro r hr
    simp only [calls, List.mem_cons] at hr
    rcases hr with h | h
    · rw [h]; exact hshape _ hne hret
    · obtain ⟨h1, h2, _⟩ := hlater r h
      apply hshape r
      · rw [h2]; exact hne
      · rw [h1, h2]
  · intro r hr
    obtain ⟨h1, _, h3⟩ := hlater r hr
    exact ⟨by rw [h1, hret], h3⟩

end SdCard

namespace SdCard

theorem setup_state_sticky_witness :
    (⟨false, .FAILED, []⟩ : Result).ret = (sdcard_setup .UNINITIALIZED ⟨-1, 0⟩).ret ∧
      (⟨false, .FAILED, []⟩ : Result).calls = [] :=
  (setup_state_sticky ⟨-1, 0⟩ [⟨0, 0⟩, ⟨0, 0⟩]).2 ⟨false, .FAILED, []⟩ (by decide)

end SdCard

namespace GetTaskInfo

/-! ## The 32-bit arithmetic of line 74 -/

/-- Inside the range of 32 bits line 73 and line 74 compute the difference of
the counters and the floor of `elapsed * 100 / (total * nproc)`. -/
theorem percentage_in_range (nproc total start_counter end_counter : Nat)
    (h1 : start_counter ≤ end_counter) (h2 : end_counter < U32)
    (h3 : (end_counter - start_counter) * 100 < U32)
    (h4 : 0 < total * nproc) (h5 : total * nproc < U32) :
    sub32 end_counter start_counter = end_counter - start_counter ∧
      percentage nproc total (sub32 end_counter start_counter) =
        some ((end_counter - start_counter) * 100 / (total * nproc)) := by
  have e1 : sub32 end_counter start_counter = end_counter - start_counter := by
    unfold sub32 U32 at *
    omega
  have e2 : mul32 total nproc = total * nproc := by
    unfold mul32
    exact Nat.mod_eq_of_lt h5
  have e3 : mul32 (end_counter - start_counter) 100 = (end_counter - start_counter) * 100 := by
    unfold mul32
    exact Nat.mod_eq_of_lt h3
  refine ⟨e1, ?_⟩
  rw [e1]
  unfold percentage
  rw [e2, e3, if_neg (by omega)]

theorem percentage_examples :
    sub32 180 100 = 80 ∧ percentage 1 200 80 = some 40 ∧ percentage 2 200 80 = some 20 := by
  decide

/-- C1 at a failing input: one processor, one task whose counter goes from 0 to
42949673 while the clock advances by 42949673. `get_task_info` prints the run
time 42949673 and the percentage 0, because `42949673 * 100` does not fit in 32
bits; the floor of `elapsed * 100 / (total * processorCount)` is 100. -/
theorem percentage_wraps :
    get_task_info 1 (envOf [⟨1, "IDLE", 0⟩] 0 [⟨1, "IDLE", 42949673⟩] 42949673) 0 =
        .returned .ESP_OK [.header, .matched 0 0 "IDLE" 42949673 0] ∧
      (42949673 - 0) * 100 / (42949673 * 1) = 100 := by
  decide

/-- C5 at a failing input: two processors and a clock that advances by `2^31`.
The guard of line 53 is passed, the divisor `total_elapsed_time * 2` is zero in
32-bit arithmetic, and the division of line 74 is a division by zero: the run
ends there, after the header was printed. -/
theorem divisor_wraps_to_zero :
    sub32 2147483648 0 ≠ 0 ∧ mul32 (sub32 2147483648 0) 2 = 0 ∧
      get_task_info 2 (envOf [⟨1, "main", 5⟩] 0 [⟨1, "main", 9⟩] 2147483648) 0 =
        .divideByZero [.header] := by
  decide

/-- With one processor the divisor of line 74 is the elapsed time itself, which
the guard of line 53 has found not to be zero. -/
theorem divisor_ne_zero_one_processor (env : Env) (xTicksToWait : Int)
    (h : totalElapsed env xTicksToWait ≠ 0) :
    mul32 (totalElapsed env xTicksToWait) 1 ≠ 0 := by
  have hlt : totalElapsed env xTicksToWait < U32 := by
    unfold totalElapsed sub32
    exact Nat.mod_lt _ (by decide)
  unfold mul32
  rw [Nat.mul_one, Nat.mod_eq_of_lt hlt]
  exact h

theorem exactly_once_witness :
    ∃ s' e' out,
      diffStep 2 40 [⟨1, "A", 10⟩, ⟨2, "B", 20⟩] [⟨2, "B", 50⟩, ⟨3, "C", 5⟩] =
        .ok (s', e', out) ∧
      ∀ h,
        matchedCount [⟨1, "A", 10⟩, ⟨2, "B", 20⟩] h out =
          (if h ∈ handles [⟨1, "A", 10⟩, ⟨2, "B", 20⟩] ∧
            h ∈ handles [⟨2, "B", 50⟩, ⟨3, "C", 5⟩] then 1 else 0) ∧
        deletedCount [⟨1, "A", 10⟩, ⟨2, "B", 20⟩] h out =
          (if h ∈ handles [⟨1, "A", 10⟩, ⟨2, "B", 20⟩] ∧
            h ∉ handles [⟨2, "B", 50⟩, ⟨3, "C", 5⟩] then 1 else 0) ∧
        createdCount [⟨2, "B", 50⟩, ⟨3, "C", 5⟩] h out =
          (if h ∈ handles [⟨2, "B", 50⟩, ⟨3, "C", 5⟩] ∧
            h ∉ handles [⟨1, "A", 10⟩, ⟨2, "B", 20⟩] then 1 else 0) :=
  exactly_once 2 40 [⟨1, "A", 10⟩, ⟨2, "B", 20⟩] [⟨2, "B", 50⟩, ⟨3, "C", 5⟩]
    (by decide) (by decide) (by decide)

/-- C7 at a failing input: two processors, the tasks `A` and `B` in both
snapshots, a clock that advances by `2^31`. The call prints the header and ends
at the division of line 74: it returns no code, and what it has printed is
neither nothing nor the report of the two tasks. -/
theorem header_printed_without_return :
    get_task_info 2
        (envOf [⟨1, "A", 10⟩, ⟨2, "B", 20⟩] 500 [⟨1, "A", 30⟩, ⟨2, "B", 50⟩] 2147484148) 0 =
      .divideByZero [.header] ∧
    (get_task_info 2
        (envOf [⟨1, "A", 10⟩, ⟨2, "B", 20⟩] 500 [⟨1, "A", 30⟩, ⟨2, "B", 50⟩] 2147484148)
        0).printed = [.header] ∧
    ∀ ret out, get_task_info 2
        (envOf [⟨1, "A", 10⟩, ⟨2, "B", 20⟩] 500 [⟨1, "A", 30⟩, ⟨2, "B", 50⟩] 2147484148) 0 ≠
      .returned ret out := by
  have h : get_task_info 2
      (envOf [⟨1, "A", 10⟩, ⟨2, "B", 20⟩] 500 [⟨1, "A", 30⟩, ⟨2, "B", 50⟩] 2147484148) 0 =
      .divideByZero [.header] := by decide
  refine ⟨h, ?_, ?_⟩
  · rw [h]; rfl
  · intro ret out hret
    rw [h] at hret
    cases hret

/-- C2 at a failing input: two processors, well-formed snapshots `A, B` and
`B, C`, a clock that advances by `2^31`. The handle of `B` is in both snapshots,
and the run ends at the division of line 74 with only the header printed: no
`Matched` line for `B`, no `Deleted` line for `A`, no `Created` line for `C`. -/
theorem report_lost_on_division :
    WellFormed [⟨1, "A", 10⟩, ⟨2, "B", 20⟩] ∧ WellFormed [⟨2, "B", 50⟩, ⟨3, "C", 5⟩] ∧
      sub32 2147484648 1000 ≠ 0 ∧
      get_task_info 2
          (envOf [⟨1, "A", 10⟩, ⟨2, "B", 20⟩] 1000 [⟨2, "B", 50⟩, ⟨3, "C", 5⟩] 2147484648) 0 =
        .divideByZero [.header] := by
  decide

end GetTaskInfo
